import Mathlib

/-!
Verification of the heightmap boundary-extraction and safe-curve pipeline
of `afk/utils/heightmap` (`extract_bounds_rgb.py`, `extract_bounds_fast.py`,
`extract_bounds.py`).

The Python scripts are shallowly embedded: pixels are lists of channel
values, an image is a function from coordinates to a pixel, the per-column
scans become `List.find?` over `List.range`, and the Fourier fit /
envelope adjustment is carried out over the reals. Definitions follow the
source line by line; theorems settle the specification claims.
-/

namespace ExtractBoundsRgb

/-- Alpha threshold from `extract_bounds_rgb.py` (`ALPHA_THRESHOLD = 50`). -/
def ALPHA_THRESHOLD : Nat := 50

/-- Embeds `is_transparent(pixel)` with the module constant `ALPHA_THRESHOLD`
made an explicit argument `thr`: a 4-tuple pixel is transparent iff its
alpha is at most the threshold; any pixel that is not a 4-tuple is not
transparent. -/
def is_transparentT (thr : Nat) (pixel : List Nat) : Bool :=
  match pixel with
  | [_, _, _, a] => a ≤ thr
  | _ => false

/-- Embeds `is_opaque(pixel)` with the threshold explicit: a 4-tuple pixel is
opaque iff its alpha exceeds the threshold; any pixel that is not a 4-tuple
is opaque. -/
def is_opaqueT (thr : Nat) (pixel : List Nat) : Bool :=
  match pixel with
  | [_, _, _, a] => thr < a
  | _ => true

/-- `is_transparent` as the source uses it, at `ALPHA_THRESHOLD`. -/
def is_transparent (pixel : List Nat) : Bool :=
  is_transparentT ALPHA_THRESHOLD pixel

/-- `is_opaque` as the source uses it, at `ALPHA_THRESHOLD`. -/
def is_opaque (pixel : List Nat) : Bool :=
  is_opaqueT ALPHA_THRESHOLD pixel

/-- The primary scan of `main` for one column (`for y in range(height - 1)`
with a break): the first `y` with the current row transparent and the row
below opaque yields boundary `y + 1`. -/
def findBoundaryY (col : Nat → List Nat) (height : Nat) : Option Nat :=
  ((List.range (height - 1)).find? fun y =>
    is_transparent (col y) && is_opaque (col (y + 1))).map (· + 1)

/-- The fallback scan of `main` for one column (`for y in range(height)` with
a break on the first opaque row). -/
def findFirstOpaque (col : Nat → List Nat) (height : Nat) : Option Nat :=
  (List.range height).find? fun y => is_opaque (col y)

/-- Points appended to `terrain_curve` for one column: the transition
boundary if one exists, otherwise the first opaque row if one exists,
otherwise nothing (the source appends nothing for an all-transparent
column). -/
def rgbColumnPoints (col : Nat → List Nat) (height : Nat) : List Nat :=
  match findBoundaryY col height with
  | some b => [b]
  | none =>
    match findFirstOpaque col height with
    | some y => [y]
    | none => []

/-- The whole `terrain_curve` construction of `main`: scan every x in
`range(width)` and append this column's points. -/
def rgbExtract (img : Nat → Nat → List Nat) (width height : Nat) :
    List (Nat × Nat) :=
  (List.range width).flatMap fun x =>
    (rgbColumnPoints (fun y => img x y) height).map fun b => (x, b)

end ExtractBoundsRgb

namespace ExtractBoundsFast

/-- Alpha threshold from `extract_bounds_fast.py` (`ALPHA_THRESHOLD = 128`). -/
def ALPHA_THRESHOLD : Nat := 128

/-- Sampling stride from `extract_bounds_fast.py` (`SAMPLE_INTERVAL = 10`). -/
def SAMPLE_INTERVAL : Nat := 10

/-- The sampled columns `range(0, width, step)`: all multiples of `step`
below `width`, in increasing order; there are `⌈width / step⌉` of them. -/
def sampleXs (width step : Nat) : List Nat :=
  List.range' 0 ((width + step - 1) / step) step

/-- Per-column scan of `main`: `top_y` defaults to `height - 1` and becomes
the first row whose alpha exceeds the threshold, if any. -/
def fastTopY (alphaCol : Nat → Nat) (height : Nat) : Nat :=
  match (List.range height).find? fun y => ALPHA_THRESHOLD < alphaCol y with
  | some y => y
  | none => height - 1

/-- The heightmap built by `main`, with the stride explicit: one `(x, top_y)`
entry per sampled column, in sampling order. `alpha y x` is the value of
row `y` at column `x`, as in the row-major `alpha[y][x]` of the source. -/
def fastExtractStep (step : Nat) (alpha : Nat → Nat → Nat)
    (width height : Nat) : List (Nat × Nat) :=
  (sampleXs width step).map fun x => (x, fastTopY (fun y => alpha y x) height)

/-- The heightmap at the source's stride `SAMPLE_INTERVAL`. -/
def fastExtract (alpha : Nat → Nat → Nat) (width height : Nat) :
    List (Nat × Nat) :=
  fastExtractStep SAMPLE_INTERVAL alpha width height

end ExtractBoundsFast

namespace ExtractBounds

/-- Image height from `extract_bounds.py` (`HEIGHT = 384`). -/
def HEIGHT : Nat := 384

/-- Embeds `find_top_opaque_pixel(x)` with the module constant `HEIGHT` made
an explicit argument and the column's alpha values (as returned by
`get_pixel_alpha`) supplied as a function: the first row with alpha above
`0.5`, defaulting to the bottom row when none exists. -/
def find_top_opaque_pixel (height : Nat) (alphaAt : Nat → ℚ) : Nat :=
  match (List.range height).find? fun y => decide ((1 : ℚ) / 2 < alphaAt y) with
  | some y => y
  | none => height - 1

end ExtractBounds

namespace ExtractBoundsRgb

/-- The seven free parameters of `fourier_curve(x, a0, a1, b1, a2, b2, a3, b3)`. -/
structure FourierParams where
  a0 : ℝ
  a1 : ℝ
  b1 : ℝ
  a2 : ℝ
  b2 : ℝ
  a3 : ℝ
  b3 : ℝ

/-- Embeds `fourier_curve` of `extract_bounds_rgb.py`: a 3-harmonic Fourier
series with base frequency `freq = 2 * pi / width` ("one cycle across the
image"). -/
noncomputable def fourier_curve (width : ℝ) (p : FourierParams) (x : ℝ) : ℝ :=
  p.a0
    + p.a1 * Real.cos (2 * Real.pi / width * x)
    + p.b1 * Real.sin (2 * Real.pi / width * x)
    + p.a2 * Real.cos (2 * (2 * Real.pi / width) * x)
    + p.b2 * Real.sin (2 * (2 * Real.pi / width) * x)
    + p.a3 * Real.cos (3 * (2 * Real.pi / width) * x)
    + p.b3 * Real.sin (3 * (2 * Real.pi / width) * x)

/-- The residual list `y_data - y_fitted` over the boundary points. -/
noncomputable def residuals (width : ℝ) (p : FourierParams)
    (pts : List (ℝ × ℝ)) : List ℝ :=
  pts.map fun q => q.2 - fourier_curve width p q.1

/-- Embeds `np.max` on a list of reals: the maximum of a non-empty list,
folded from the head. (`np.max` raises on an empty array; the `[]` case is
given the junk value `0` and is never reached from the source, which calls
it on one residual per extracted point.) -/
noncomputable def npMax : List ℝ → ℝ
  | [] => 0
  | r :: rs => rs.foldl max r

/-- Embeds `max_error = np.max(y_data - y_fitted)` (line 130). -/
noncomputable def max_error (width : ℝ) (p : FourierParams)
    (pts : List (ℝ × ℝ)) : ℝ :=
  npMax (residuals width p pts)

/-- Embeds `safety_margin = max_error + 5` (line 131). -/
noncomputable def safety_margin (width : ℝ) (p : FourierParams)
    (pts : List (ℝ × ℝ)) : ℝ :=
  max_error width p pts + 5

/-- Embeds `safe_params = params.copy(); safe_params[0] -= safety_margin`
(lines 137-138): only the DC coefficient changes. -/
noncomputable def safe_params (width : ℝ) (p : FourierParams)
    (pts : List (ℝ × ℝ)) : FourierParams :=
  { p with a0 := p.a0 - safety_margin width p pts }

/-- The verification predicate of line 146, `np.all(y_safe <= y_data)`:
every boundary point lies on or below the adjusted curve's value. -/
def envelope_check (width : ℝ) (p : FourierParams)
    (pts : List (ℝ × ℝ)) : Prop :=
  ∀ q ∈ pts, fourier_curve width (safe_params width p pts) q.1 ≤ q.2

end ExtractBoundsRgb

section HelperLemmas

open ExtractBoundsRgb ExtractBoundsFast ExtractBounds

/-- A left fold of `max` lands on its seed or on a list element. -/
lemma foldl_max_mem (l : List ℝ) (a : ℝ) :
    l.foldl max a = a ∨ l.foldl max a ∈ l := by
  induction l generalizing a with
  | nil => exact Or.inl rfl
  | cons x xs ih =>
    simp only [List.foldl_cons]
    rcases ih (max a x) with h | h
    · rcases max_choice a x with hm | hm
      · exact Or.inl (h.trans hm)
      · refine Or.inr ?_
        rw [h, hm]
        exact List.mem_cons_self x xs
    · exact Or.inr (List.mem_cons_of_mem x h)

/-- A left fold of `max` dominates its seed and every list element. -/
lemma le_foldl_max (l : List ℝ) (a : ℝ) :
    a ≤ l.foldl max a ∧ ∀ r ∈ l, r ≤ l.foldl max a := by
  induction l generalizing a with
  | nil => simp
  | cons x xs ih =>
    obtain ⟨h1, h2⟩ := ih (max a x)
    refine ⟨le_trans (le_max_left a x) h1, ?_⟩
    intro r hr
    rcases List.mem_cons.mp hr with rfl | hr
    · exact le_trans (le_max_right a r) h1
    · exact h2 r hr

/-- On a non-empty list, `npMax` is an element of the list. -/
lemma npMax_mem (l : List ℝ) (h : l ≠ []) : npMax l ∈ l := by
  match l with
  | r :: rs =>
    rcases foldl_max_mem rs r with h' | h'
    · rw [npMax, h']; exact List.mem_cons_self r rs
    · exact List.mem_cons_of_mem r (show rs.foldl max r ∈ rs from h')

/-- On a non-empty list, `npMax` dominates every element. -/
lemma le_npMax (l : List ℝ) (r : ℝ) (hr : r ∈ l) : r ≤ npMax l := by
  match l with
  | x :: xs =>
    rcases List.mem_cons.mp hr with rfl | hr'
    · exact (le_foldl_max xs r).1
    · exact (le_foldl_max xs x).2 r hr'

/-- A `find?` over `range' i n` returns exactly the least index satisfying
the predicate, when one lies in the scanned window. -/
lemma find?_range'_eq_some (p : Nat → Bool) :
    ∀ n i y : Nat, i ≤ y → y < i + n → p y = true →
      (∀ z, i ≤ z → z < y → p z = false) →
      (List.range' i n).find? p = some y := by
  intro n
  induction n with
  | zero => intro i y h1 h2 _ _; omega
  | succ n ih =>
    intro i y h1 h2 hp hmin
    rw [List.range'_succ]
    by_cases hi : p i = true
    · have hiy : i = y := by
        by_contra hne
        have hlt : i < y := lt_of_le_of_ne h1 hne
        have := hmin i (le_refl i) hlt
        rw [hi] at this
        exact Bool.noConfusion this
      subst hiy
      exact List.find?_cons_of_pos _ hi
    · have hiy : i < y := by
        rcases lt_or_eq_of_le h1 with h | h
        · exact h
        · subst h; exact absurd hp hi
      rw [List.find?_cons_of_neg _ hi]
      exact ih (i + 1) y hiy (by omega) hp fun z hz1 hz2 => hmin z (by omega) hz2

/-- A curve with all harmonic coefficients zero is the constant `a`. -/
lemma fourier_const (width a x : ℝ) :
    fourier_curve width ⟨a, 0, 0, 0, 0, 0, 0⟩ x = a := by
  simp [fourier_curve]

/-- Shifting `a0` shifts the curve's value pointwise by the same amount:
the adjusted curve is the fitted curve lowered by the safety margin. -/
lemma fourier_curve_safe_shift (width : ℝ) (p : FourierParams)
    (pts : List (ℝ × ℝ)) (x : ℝ) :
    fourier_curve width (safe_params width p pts) x
      = fourier_curve width p x - safety_margin width p pts := by
  simp only [fourier_curve, safe_params]
  ring

/-- The envelope adjuster on the boundary set `[(0, 0), (1, -10)]` and the
all-zero coefficient vector: both residuals relative to the zero curve are
`0` and `-10`, the computed margin is `max 0 (-10) + 5 = 5`, and the
adjusted coefficients are `a0 = -5` with zero harmonics. -/
lemma safe_params_cex :
    safe_params 640 ⟨0, 0, 0, 0, 0, 0, 0⟩ [((0 : ℝ), (0 : ℝ)), (1, -10)]
      = ⟨-5, 0, 0, 0, 0, 0, 0⟩ := by
  have h0 : ∀ x : ℝ, fourier_curve 640 ⟨0, 0, 0, 0, 0, 0, 0⟩ x = 0 :=
    fun x => fourier_const 640 0 x
  simp only [safe_params, safety_margin, max_error, residuals, List.map_cons,
    List.map_nil, h0, npMax, List.foldl_cons, List.foldl_nil]
  norm_num

end HelperLemmas

section Claims

open ExtractBoundsRgb ExtractBoundsFast ExtractBounds

/-- C9: for every threshold and every pixel value, `is_opaque` returns the
boolean negation of `is_transparent`, so each pixel is classified as
exactly one of opaque or transparent; a pixel that is not a 4-tuple (no
alpha channel) is always opaque and never transparent, regardless of the
threshold. -/
theorem claim_c9_classification_dichotomy (thr : Nat) (pixel : List Nat) :
    is_opaqueT thr pixel = !is_transparentT thr pixel ∧
    (pixel.length ≠ 4 →
      is_opaqueT thr pixel = true ∧ is_transparentT thr pixel = false) := by
  constructor
  · match pixel with
    | [] | [_] | [_, _] | [_, _, _] => rfl
    | [r, g, b, a] =>
      show decide (thr < a) = !decide (a ≤ thr)
      by_cases h : thr < a
      · rw [decide_eq_true h, decide_eq_false (Nat.not_le.mpr h)]; rfl
      · rw [decide_eq_false h, decide_eq_true (Nat.le_of_not_lt h)]; rfl
    | _ :: _ :: _ :: _ :: _ :: _ => rfl
  · intro hlen
    match pixel with
    | [] | [_] | [_, _] | [_, _, _] => exact ⟨rfl, rfl⟩
    | [_, _, _, _] => simp at hlen
    | _ :: _ :: _ :: _ :: _ :: _ => exact ⟨rfl, rfl⟩

/-- C9 witness: a 3-tuple RGB pixel is opaque, not transparent, and the
dichotomy holds on it. -/
theorem claim_c9_witness :
    (([0, 0, 0] : List Nat).length ≠ 4) ∧
    is_opaqueT 50 [0, 0, 0] = !is_transparentT 50 [0, 0, 0] ∧
    is_opaqueT 50 [0, 0, 0] = true ∧ is_transparentT 50 [0, 0, 0] = false :=
  ⟨by decide, (claim_c9_classification_dichotomy 50 [0, 0, 0]).1,
    (claim_c9_classification_dichotomy 50 [0, 0, 0]).2 (by decide)⟩

/-- C6: if row `y` is transparent, row `y + 1` is opaque, `y + 1` is inside
the column, and no smaller row index has this property, then the column
scan of `extract_bounds_rgb.py` emits exactly the boundary point `y + 1`. -/
theorem claim_c6_transition (col : Nat → List Nat) (height y : Nat)
    (hy : y + 1 < height)
    (ht : is_transparent (col y) = true)
    (ho : is_opaque (col (y + 1)) = true)
    (hmin : ∀ z, z < y →
      ¬(is_transparent (col z) = true ∧ is_opaque (col (z + 1)) = true)) :
    rgbColumnPoints col height = [y + 1] := by
  have hfind : ((List.range (height - 1)).find? fun z =>
      is_transparent (col z) && is_opaque (col (z + 1))) = some y := by
    rw [List.range_eq_range']
    apply find?_range'_eq_some _ (height - 1) 0 y (Nat.zero_le y) (by omega)
    · rw [ht, ho]; rfl
    · intro z _ hz
      have := hmin z hz
      cases h1 : is_transparent (col z) <;> cases h2 : is_opaque (col (z + 1))
      · rfl
      · rfl
      · rfl
      · exact absurd ⟨h1, h2⟩ this
  unfold rgbColumnPoints findBoundaryY
  rw [hfind]
  rfl

/-- C6 witness: the column `[transparent, transparent, opaque, opaque]`
(alpha values 0, 0, 255, 255; indices 0..3) yields boundary `y = 2`. -/
theorem claim_c6_witness :
    (is_transparent [0, 0, 0, 0] = true ∧ is_opaque [0, 0, 0, 255] = true) ∧
    rgbColumnPoints
      (fun y => if y < 2 then [0, 0, 0, 0] else [0, 0, 0, 255]) 4 = [2] := by
  refine ⟨⟨by decide, by decide⟩, ?_⟩
  exact claim_c6_transition _ 4 1 (by decide) (by decide) (by decide)
    (by intro z hz; interval_cases z; decide)

/-- C4: the exact extractor of `extract_bounds_rgb.py` does skip a sampled
column on degenerate input: on a 1-column, 2-row, all-transparent grid it
returns no boundary point at all (the claim demands `⌈1 / 1⌉ = 1` point),
while the stride-1 fast extractor of `extract_bounds_fast.py` on the
all-transparent alpha grid of the same shape returns exactly one point. -/
theorem claim_c4_skipped_column :
    rgbExtract (fun _ _ => [0, 0, 0, 0]) 1 2 = [] ∧
    fastExtractStep 1 (fun _ _ => 0) 1 2 = [(0, 1)] := by
  constructor
  · rfl
  · rfl

/-- C5: the fallback behavior at degenerate columns of height 2. The fast
extractor and the ImageMagick-based extractor both map an all-opaque column
to `y = 0` and an all-transparent column to `y = H - 1 = 1`, as the claim
states; the rgb extractor maps an all-opaque column to `y = 0` but emits
nothing for an all-transparent column instead of `H - 1`. -/
theorem claim_c5_fallback_eval :
    rgbColumnPoints (fun _ => [0, 0, 0, 255]) 2 = [0] ∧
    rgbColumnPoints (fun _ => [0, 0, 0, 0]) 2 = [] ∧
    fastTopY (fun _ => 255) 2 = 0 ∧
    fastTopY (fun _ => 0) 2 = 1 ∧
    find_top_opaque_pixel 2 (fun _ => 1) = 0 ∧
    find_top_opaque_pixel 2 (fun _ => 0) = 1 := by
  refine ⟨rfl, rfl, rfl, rfl, ?_, ?_⟩
  · unfold find_top_opaque_pixel
    rw [show List.range 2 = [0, 1] from rfl,
      List.find?_cons_of_pos _ (by norm_num)]
  · unfold find_top_opaque_pixel
    rw [show List.range 2 = [0, 1] from rfl,
      List.find?_cons_of_neg _ (by norm_num),
      List.find?_cons_of_neg _ (by norm_num)]
    rfl

/-- C10: every boundary point emitted for a column of height `H ≥ 1` lies
inside the grid: the rgb extractor's per-column points, the fast
extractor's `top_y`, and the interval extractor's `find_top_opaque_pixel`
all return a row index at most `H - 1` (and at least 0, as they are
naturals). -/
theorem claim_c10_boundary_range (col : Nat → List Nat) (alphaCol : Nat → Nat)
    (alphaAt : Nat → ℚ) (H b : Nat) (hH : 1 ≤ H) :
    (b ∈ rgbColumnPoints col H → b ≤ H - 1) ∧
    fastTopY alphaCol H ≤ H - 1 ∧
    find_top_opaque_pixel H alphaAt ≤ H - 1 := by
  refine ⟨?_, ?_, ?_⟩
  · intro hb
    unfold rgbColumnPoints at hb
    cases hfb : findBoundaryY col H with
    | some v =>
      rw [hfb] at hb
      have hbv : b = v := List.mem_singleton.mp hb
      unfold findBoundaryY at hfb
      rcases Option.map_eq_some'.mp hfb with ⟨y, hy, hyv⟩
      have : y ∈ List.range (H - 1) := List.mem_of_find?_eq_some hy
      have := List.mem_range.mp this
      omega
    | none =>
      rw [hfb] at hb
      cases hfo : findFirstOpaque col H with
      | some y =>
        rw [hfo] at hb
        have hbv : b = y := List.mem_singleton.mp hb
        unfold findFirstOpaque at hfo
        have : y ∈ List.range H := List.mem_of_find?_eq_some hfo
        have := List.mem_range.mp this
        omega
      | none =>
        rw [hfo] at hb
        exact absurd hb (List.not_mem_nil b)
  · unfold fastTopY
    split
    · rename_i y hf
      have hy := List.mem_range.mp (List.mem_of_find?_eq_some hf)
      omega
    · omega
  · unfold find_top_opaque_pixel
    split
    · rename_i y hf
      have hy := List.mem_range.mp (List.mem_of_find?_eq_some hf)
      omega
    · omega

/-- C10 witness: concrete height-2 columns; each extractor's output row is
at most `H - 1 = 1`. -/
theorem claim_c10_witness :
    1 ≤ 2 ∧
    ((0 ∈ rgbColumnPoints (fun _ => [0, 0, 0, 255]) 2 → 0 ≤ 1) ∧
     fastTopY (fun _ => 0) 2 ≤ 1 ∧
     find_top_opaque_pixel 2 (fun _ => 0) ≤ 1) :=
  ⟨by decide,
    claim_c10_boundary_range (fun _ => [0, 0, 0, 255]) (fun _ => 0)
      (fun _ => 0) 2 0 (by decide)⟩

/-- C3: the safety margin is the maximum boundary residual
`y_i - fourier_curve(x_i)` plus the fixed buffer 5, and the adjusted curve
lowers exactly the DC coefficient by that margin: `max_error` is a residual
that dominates every residual, `safety_margin = max_error + 5`, and
`a0_safe = a0 - safety_margin`. -/
theorem claim_c3_margin (width : ℝ) (p : FourierParams) (pts : List (ℝ × ℝ))
    (hne : pts ≠ []) :
    max_error width p pts ∈ residuals width p pts ∧
    (∀ r ∈ residuals width p pts, r ≤ max_error width p pts) ∧
    safety_margin width p pts = max_error width p pts + 5 ∧
    (safe_params width p pts).a0 = p.a0 - safety_margin width p pts := by
  have hres : residuals width p pts ≠ [] := by
    intro h
    exact hne (List.map_eq_nil_iff.mp h)
  exact ⟨npMax_mem _ hres, fun r hr => le_npMax _ r hr, rfl, rfl⟩

/-- C3 witness: the margin data at the one-point boundary set `[(0, 0)]`
and the all-zero fitted curve. -/
theorem claim_c3_witness :
    ([((0 : ℝ), (0 : ℝ))] ≠ []) ∧
    (max_error 640 ⟨0, 0, 0, 0, 0, 0, 0⟩ [((0 : ℝ), (0 : ℝ))]
        ∈ residuals 640 ⟨0, 0, 0, 0, 0, 0, 0⟩ [((0 : ℝ), (0 : ℝ))] ∧
      (∀ r ∈ residuals 640 ⟨0, 0, 0, 0, 0, 0, 0⟩ [((0 : ℝ), (0 : ℝ))],
        r ≤ max_error 640 ⟨0, 0, 0, 0, 0, 0, 0⟩ [((0 : ℝ), (0 : ℝ))]) ∧
      safety_margin 640 ⟨0, 0, 0, 0, 0, 0, 0⟩ [((0 : ℝ), (0 : ℝ))]
        = max_error 640 ⟨0, 0, 0, 0, 0, 0, 0⟩ [((0 : ℝ), (0 : ℝ))] + 5 ∧
      (safe_params 640 ⟨0, 0, 0, 0, 0, 0, 0⟩ [((0 : ℝ), (0 : ℝ))]).a0
        = (0 : ℝ) - safety_margin 640 ⟨0, 0, 0, 0, 0, 0, 0⟩ [((0 : ℝ), (0 : ℝ))]) :=
  ⟨List.cons_ne_nil _ _,
    claim_c3_margin 640 ⟨0, 0, 0, 0, 0, 0, 0⟩ [((0 : ℝ), (0 : ℝ))]
      (List.cons_ne_nil _ _)⟩

/-- C7: the envelope adjustment changes only the DC coefficient: all six
harmonic coefficients are unchanged, and consequently the adjusted curve
is everywhere the fitted curve minus the margin. -/
theorem claim_c7_frame (width : ℝ) (p : FourierParams) (pts : List (ℝ × ℝ)) :
    (safe_params width p pts).a1 = p.a1 ∧
    (safe_params width p pts).b1 = p.b1 ∧
    (safe_params width p pts).a2 = p.a2 ∧
    (safe_params width p pts).b2 = p.b2 ∧
    (safe_params width p pts).a3 = p.a3 ∧
    (safe_params width p pts).b3 = p.b3 ∧
    ∀ x : ℝ, fourier_curve width (safe_params width p pts) x
        = fourier_curve width p x - safety_margin width p pts :=
  ⟨rfl, rfl, rfl, rfl, rfl, rfl, fun x => fourier_curve_safe_shift width p pts x⟩

/-- C8: the curve model is exactly periodic with period `width` for every
coefficient vector and every real `x`, because every basis term has
frequency an integer multiple of `2π / width`. This covers `safe_y`, whose
curve is itself a coefficient vector. -/
theorem claim_c8_periodicity (width : ℝ) (hw : 0 < width) (p : FourierParams)
    (x : ℝ) :
    fourier_curve width p (x + width) = fourier_curve width p x := by
  have hw' : width ≠ 0 := ne_of_gt hw
  have h1 : 2 * Real.pi / width * (x + width)
      = 2 * Real.pi / width * x + (1 : ℤ) * (2 * Real.pi) := by
    field_simp
    ring
  have h2 : 2 * (2 * Real.pi / width) * (x + width)
      = 2 * (2 * Real.pi / width) * x + (2 : ℤ) * (2 * Real.pi) := by
    field_simp
    ring
  have h3 : 3 * (2 * Real.pi / width) * (x + width)
      = 3 * (2 * Real.pi / width) * x + (3 : ℤ) * (2 * Real.pi) := by
    field_simp
    ring
  rw [fourier_curve, fourier_curve, h1, h2, h3,
    Real.cos_add_int_mul_two_pi, Real.sin_add_int_mul_two_pi,
    Real.cos_add_int_mul_two_pi, Real.sin_add_int_mul_two_pi,
    Real.cos_add_int_mul_two_pi, Real.sin_add_int_mul_two_pi]

/-- C8 witness: periodicity of a concrete curve at `x = 0` with period 640. -/
theorem claim_c8_witness :
    (0 : ℝ) < 640 ∧
    fourier_curve 640 ⟨1, 2, 3, 4, 5, 6, 7⟩ (0 + 640)
      = fourier_curve 640 ⟨1, 2, 3, 4, 5, 6, 7⟩ 0 :=
  ⟨by norm_num, claim_c8_periodicity 640 (by norm_num) ⟨1, 2, 3, 4, 5, 6, 7⟩ 0⟩

/-- C1: the envelope guarantee fails on the code's margin rule. For the
boundary set `[(0, 0), (1, -10)]` and the all-zero fitted curve, the
residuals are `0` and `-10`, so `safety_margin = max(0, -10) + 5 = 5` and
the adjusted curve is the constant `-5`; at the boundary point `(1, -10)`
the adjusted curve value `-5` is NOT `≤ -10`, so the safe curve passes
below that boundary point. (The guarantee would need the margin to use
`max(y_fitted - y_data)`, not `max(y_data - y_fitted)`.) -/
theorem claim_c1_envelope_violated :
    safety_margin 640 ⟨0, 0, 0, 0, 0, 0, 0⟩ [((0 : ℝ), (0 : ℝ)), (1, -10)] = 5 ∧
    fourier_curve 640
      (safe_params 640 ⟨0, 0, 0, 0, 0, 0, 0⟩ [((0 : ℝ), (0 : ℝ)), (1, -10)]) 1
      = -5 ∧
    ¬(fourier_curve 640
      (safe_params 640 ⟨0, 0, 0, 0, 0, 0, 0⟩ [((0 : ℝ), (0 : ℝ)), (1, -10)]) 1
      ≤ (-10 : ℝ)) := by
  have h0 : ∀ x : ℝ, fourier_curve 640 ⟨0, 0, 0, 0, 0, 0, 0⟩ x = 0 :=
    fun x => fourier_const 640 0 x
  have hm : safety_margin 640 ⟨0, 0, 0, 0, 0, 0, 0⟩
      [((0 : ℝ), (0 : ℝ)), (1, -10)] = 5 := by
    simp only [safety_margin, max_error, residuals, List.map_cons,
      List.map_nil, h0, npMax, List.foldl_cons, List.foldl_nil]
    norm_num
  have he : fourier_curve 640
      (safe_params 640 ⟨0, 0, 0, 0, 0, 0, 0⟩ [((0 : ℝ), (0 : ℝ)), (1, -10)]) 1
      = -5 := by
    rw [safe_params_cex]
    exact fourier_const 640 (-5) 1
  exact ⟨hm, he, by rw [he]; norm_num⟩

/-- C2 (amended): a violated post-condition is not turned into a failure.
Whenever some boundary point lies strictly below the adjusted curve, the
check of line 146 is false, and yet the adjuster still produces the full
shifted curve — the same `a0 - margin` curve as always; nothing in the
computation fails or is withheld. -/
theorem claim_c2_no_failure (width : ℝ) (p : FourierParams)
    (pts : List (ℝ × ℝ)) (q : ℝ × ℝ) (hq : q ∈ pts)
    (hviol : q.2 < fourier_curve width (safe_params width p pts) q.1) :
    ¬envelope_check width p pts ∧
    ∀ x : ℝ, fourier_curve width (safe_params width p pts) x
        = fourier_curve width p x - safety_margin width p pts :=
  ⟨fun hc => absurd (hc q hq) (not_le.mpr hviol),
    fun x => fourier_curve_safe_shift width p pts x⟩

/-- C2 counterexample: a concrete input on which the envelope post-condition
is false while the adjuster nevertheless returns the (unsafe) shifted
curve `⟨-5, 0, 0, 0, 0, 0, 0⟩` — no error value exists anywhere in the
computation. -/
theorem claim_c2_cex :
    ¬envelope_check 640 ⟨0, 0, 0, 0, 0, 0, 0⟩ [((0 : ℝ), (0 : ℝ)), (1, -10)] ∧
    safe_params 640 ⟨0, 0, 0, 0, 0, 0, 0⟩ [((0 : ℝ), (0 : ℝ)), (1, -10)]
      = ⟨-5, 0, 0, 0, 0, 0, 0⟩ := by
  refine ⟨fun hc => ?_, safe_params_cex⟩
  have h := hc (1, -10) (by simp)
  rw [safe_params_cex] at h
  have := fourier_const 640 (-5) 1
  rw [this] at h
  norm_num at h

/-- C2 witness: the amended statement applied at the concrete violating
input. -/
theorem claim_c2_witness :
    (((1 : ℝ), (-10 : ℝ)) ∈ [((0 : ℝ), (0 : ℝ)), (1, -10)] ∧
      (-10 : ℝ) < fourier_curve 640
        (safe_params 640 ⟨0, 0, 0, 0, 0, 0, 0⟩
          [((0 : ℝ), (0 : ℝ)), (1, -10)]) 1) ∧
    ¬envelope_check 640 ⟨0, 0, 0, 0, 0, 0, 0⟩ [((0 : ℝ), (0 : ℝ)), (1, -10)] := by
  have hv : (-10 : ℝ) < fourier_curve 640
      (safe_params 640 ⟨0, 0, 0, 0, 0, 0, 0⟩
        [((0 : ℝ), (0 : ℝ)), (1, -10)]) 1 := by
    rw [safe_params_cex]
    rw [fourier_const 640 (-5) 1]
    norm_num
  exact ⟨⟨by simp, hv⟩,
    (claim_c2_no_failure 640 ⟨0, 0, 0, 0, 0, 0, 0⟩
      [((0 : ℝ), (0 : ℝ)), (1, -10)] (1, -10) (by simp) hv).1⟩

end Claims

section Supporting

open ExtractBoundsRgb ExtractBoundsFast ExtractBounds

/-- The fast extractor does satisfy the coverage contract: with stride
`step > 0` it emits exactly `⌈width / step⌉` points whose x-values are the
sampled columns `0, step, 2·step, ...`, strictly increasing. -/
theorem fast_coverage (step : Nat) (alpha : Nat → Nat → Nat)
    (width height : Nat) (hs : 0 < step) :
    (fastExtractStep step alpha width height).length
        = (width + step - 1) / step ∧
    (fastExtractStep step alpha width height).map Prod.fst
        = sampleXs width step ∧
    List.Pairwise (· < ·)
      ((fastExtractStep step alpha width height).map Prod.fst) := by
  have hmap : (fastExtractStep step alpha width height).map Prod.fst
      = sampleXs width step := by
    simp only [fastExtractStep, List.map_map]
    exact List.map_id _ ▸ rfl
  refine ⟨?_, hmap, ?_⟩
  · simp [fastExtractStep, sampleXs]
  · rw [hmap]
    exact List.pairwise_lt_range' 0 ((width + step - 1) / step) step hs

/-- A column that contains an opaque pixel is never skipped by the rgb
extractor: the skip happens only on columns with no opaque pixel at all. -/
theorem rgb_column_emits_of_opaque (col : Nat → List Nat) (height y0 : Nat)
    (hy0 : y0 < height) (hop : is_opaque (col y0) = true) :
    rgbColumnPoints col height ≠ [] := by
  unfold rgbColumnPoints
  split
  · exact List.cons_ne_nil _ _
  · split
    · exact List.cons_ne_nil _ _
    · rename_i hfo
      exfalso
      unfold findFirstOpaque at hfo
      have := List.find?_eq_none.mp hfo y0 (List.mem_range.mpr hy0)
      rw [hop] at this
      exact this rfl

end Supporting
